import Mathlib

/-
Formal model of the session-coordination layer of a group chat service:
the matchmaking queue and room registry (match_manager.py), the bounded
per-room conversation context (context_manager.py), and the delayed
bot-reply task and websocket connection handler (main.py).

Python data structures are embedded as follows: dicts become association
lists with first-match lookup and in-place update (CPython dicts have
unique keys and preserve insertion order); datetimes become Nat second
counts supplied explicitly by the caller (datetime.now() is an input);
Python strings become Lean strings, operated on through their character
lists; a raised exception is an Except.error paired with the state as
already mutated before the raise (CPython mutations performed before an
exception are not rolled back).
-/

namespace GroupChatBot

/-! ## Python dict primitives (association lists) -/

/-- Lookup, first matching key (CPython dicts have unique keys, so the
first match is the only match). Models d.get(k) / d[k]. -/
def dictGet {α β : Type} [DecidableEq α] (d : List (α × β)) (k : α) : Option β :=
  match d with
  | [] => none
  | p :: rest => if p.1 = k then some p.2 else dictGet rest k

/-- Update in place: replace the first entry holding key k, or append a
fresh entry. Models d[k] = v. -/
def dictSet {α β : Type} [DecidableEq α] (d : List (α × β)) (k : α) (v : β) :
    List (α × β) :=
  match d with
  | [] => [(k, v)]
  | p :: rest => if p.1 = k then (k, v) :: rest else p :: dictSet rest k v

/-- Deletion. Models del d[k] (on a dict with unique keys). -/
def dictDel {α β : Type} [DecidableEq α] (d : List (α × β)) (k : α) :
    List (α × β) :=
  d.filter (fun p => p.1 ≠ k)

/-! ## Python string helpers (on character lists, as CPython treats code
points; ASCII-only inputs appear in all claims) -/

/-- Does the character list s begin with the pattern p? Auxiliary for
py_startswith. -/
def begins : List Char → List Char → Bool
  | [], _ => true
  | _ :: _, [] => false
  | c :: cs, d :: ds => c = d && begins cs ds

/-- Models s.startswith(pat). -/
def py_startswith (s pat : String) : Bool :=
  begins pat.data s.data

/-- Models s.lower() (ASCII case mapping; all claim inputs are ASCII). -/
def pyLower (s : String) : String :=
  ⟨s.data.map Char.toLower⟩

/-- Split accumulator for py_split: current word is held reversed. -/
def pySplitGo : List Char → List Char → List String
  | [], acc => if acc.isEmpty then [] else [⟨acc.reverse⟩]
  | c :: cs, acc =>
    if c.isWhitespace then
      if acc.isEmpty then pySplitGo cs [] else ⟨acc.reverse⟩ :: pySplitGo cs []
    else pySplitGo cs (c :: acc)

/-- Models s.split() with no arguments: split on runs of whitespace,
discarding empty tokens. -/
def py_split (s : String) : List String :=
  pySplitGo s.data []

/-- Models s[-n:] for n ≥ 0: the last n elements, or the whole list when
n = 0 (CPython quirk: l[-0:] is l[0:], the whole list) or n ≥ len. -/
def pyLastN {α : Type} (l : List α) (n : Nat) : List α :=
  if n = 0 then l else l.drop (l.length - n)

/-! ## context_manager.py: ConversationContext -/

/-- Source constant ConversationContext.MAX_MESSAGES_PER_ROOM. -/
def MAX_MESSAGES_PER_ROOM : Nat := 1000

/-- Source constant ConversationContext.MAX_KEYWORDS_PER_USER. -/
def MAX_KEYWORDS_PER_USER : Nat := 50

/-- One entry of ConversationContext.messages: the dict built in
add_message with keys sender, text, timestamp, turn. -/
structure Msg where
  sender : String
  text : String
  timestamp : String
  turn : Nat
deriving DecidableEq

/-- One entry of ConversationContext.user_profiles. avg_message_length is
a Python float computed as total_chars / message_count; it is modelled as
an exact rational (the claims never inspect float rounding). -/
structure UserProfile where
  message_count : Nat
  first_message : String
  last_message : String
  keywords : List String
  interaction_style : String
  avg_message_length : ℚ
  total_chars : Nat
deriving DecidableEq

/-- ConversationContext state. created_at and last_activity are datetimes,
modelled as seconds (Nat); topic_history is never written or read by any
modelled operation and is omitted. -/
structure ConversationContext where
  room_id : String
  messages : List Msg
  user_profiles : List (String × UserProfile)
  created_at : Nat
  last_activity : Nat
deriving DecidableEq

/-- ConversationContext.__init__(room_id) at time now. -/
def contextInit (room_id : String) (now : Nat) : ConversationContext :=
  ⟨room_id, [], [], now, now⟩

/-- The stopword set of ConversationContext._extract_keywords, verbatim. -/
def stopwords : List String :=
  ["a", "an", "the", "and", "or", "but", "in", "on", "at", "to", "for",
   "of", "with", "by", "is", "am", "are", "was", "were", "be", "been",
   "being", "have", "has", "had", "do", "does", "did", "will", "would",
   "shall", "should", "may", "might", "must", "can", "could", "i", "you",
   "he", "she", "it", "we", "they", "me", "him", "her", "us", "them",
   "my", "your", "his", "its", "our", "their", "mine", "yours", "hers",
   "ours", "theirs", "this", "that", "these", "those", "here", "there",
   "what", "which", "who", "whom", "whose", "when", "where", "why", "how"]

/-- ConversationContext._extract_keywords: lower-case, split on
whitespace, keep words of length > 2 not in the stopword set, then
deduplicate. CPython builds list(set(keywords)), whose order is
unspecified; List.dedup fixes one order, and every property proved about
the result is a membership property, which is order-independent. -/
def extract_keywords (text : String) : List String :=
  let words := py_split (pyLower text)
  (words.filter (fun w => decide (2 < w.data.length ∧ w ∉ stopwords))).dedup

/-- The renumbering loop of add_message: for i, msg in
enumerate(self.messages, 1): msg["turn"] = i — here generalised over the
starting index n. -/
def renumberFrom (n : Nat) : List Msg → List Msg
  | [] => []
  | m :: ms => {m with turn := n} :: renumberFrom (n + 1) ms

/-- The profile-update block of add_message (executed only for non-bot
senders). -/
def update_profile (profiles : List (String × UserProfile))
    (sender text timestamp : String) : List (String × UserProfile) :=
  let init : UserProfile := ⟨0, timestamp, timestamp, [], "neutral", 0, 0⟩
  let profiles := if (dictGet profiles sender).isNone
    then dictSet profiles sender init else profiles
  let p := (dictGet profiles sender).getD init
  let p := {p with
    message_count := p.message_count + 1,
    last_message := timestamp,
    total_chars := p.total_chars + text.data.length}
  let p := {p with avg_message_length := (p.total_chars : ℚ) / (p.message_count : ℚ)}
  let kws := p.keywords ++ extract_keywords text
  let kws := if MAX_KEYWORDS_PER_USER < kws.length
    then pyLastN kws MAX_KEYWORDS_PER_USER else kws
  dictSet profiles sender {p with keywords := kws}

/-- ConversationContext.add_message(sender, text, timestamp). The source
defaults timestamp to datetime.now().isoformat(); the caller passes it
explicitly here. now models the datetime.now() stored in last_activity. -/
def add_message (self : ConversationContext) (sender text timestamp : String)
    (now : Nat) : ConversationContext :=
  let turn := self.messages.length + 1
  let (msgs, turn) :=
    if MAX_MESSAGES_PER_ROOM ≤ self.messages.length then
      let ms := renumberFrom 1 (self.messages.drop 1)
      (ms, ms.length + 1)
    else (self.messages, turn)
  let message : Msg := ⟨sender, text, timestamp, turn⟩
  let self := {self with messages := msgs ++ [message], last_activity := now}
  if pyLower sender ≠ "bot" ∧ py_startswith sender "Bot" = false then
    {self with user_profiles := update_profile self.user_profiles sender text timestamp}
  else self

/-- ConversationContext.clear_old_messages(keep_last): truncates to
messages[-keep_last:] when over the bound and returns the reported
removed count. Turn numbers are not touched. -/
def clear_old_messages (self : ConversationContext) (keep_last : Nat) :
    ConversationContext × Nat :=
  if keep_last < self.messages.length then
    ({self with messages := pyLastN self.messages keep_last},
     self.messages.length - keep_last)
  else (self, 0)

/-- The claim-relevant fields of the dict returned by
ConversationContext.get_statistics. The iso-formatted created_at /
last_activity / duration strings and the float-rounded
average_message_length are string/float formatting and are not modelled;
no claim inspects them. is_active is computed from the timedelta
attribute .seconds, which for a non-negative timedelta is the total
elapsed seconds modulo 86400. -/
structure Stats where
  room_id : String
  total_messages : Nat
  total_participants : Nat
  total_characters : Nat
  participant_messages : List (String × Nat)
  is_active : Bool
deriving DecidableEq

/-- ConversationContext.get_statistics() at time now. -/
def get_statistics (self : ConversationContext) (now : Nat) : Stats :=
  { room_id := self.room_id
    total_messages := self.messages.length
    total_participants := self.user_profiles.length
    total_characters := (self.messages.map (fun m => m.text.data.length)).sum
    participant_messages := self.user_profiles.map (fun p => (p.1, p.2.message_count))
    is_active := decide ((now - self.last_activity) % 86400 < 300) }

/-- The dict returned by ConversationContext.to_dict (iso-format date
strings omitted as above). -/
structure ContextDict where
  room_id : String
  messagesExport : List Msg
  user_profiles : List (String × UserProfile)
  total_turns : Nat
  active_participants : Nat
  summary : Stats
deriving DecidableEq

/-- ConversationContext.to_dict() at time now: the export keeps only
messages[-100:], while the counts and the summary are computed from the
full in-memory log. -/
def to_dict (self : ConversationContext) (now : Nat) : ContextDict :=
  { room_id := self.room_id
    messagesExport := pyLastN self.messages 100
    user_profiles := self.user_profiles
    total_turns := self.messages.length
    active_participants := self.user_profiles.length
    summary := get_statistics self now }

/-! ## match_manager.py: MatchManager -/

/-- A Python value used as a key of MatchManager.active_rooms. The code
contains two call shapes: create_room is written to take a room id
(hashable string) first, but match_group calls create_room(group),
passing the list of matched uids in the room_id slot. A Python list is
unhashable, so using it as a dict key raises TypeError. -/
inductive RoomKey where
  | str (s : String)
  | strList (l : List String)
deriving DecidableEq

/-- The Python exceptions that the modelled operations can raise. -/
inductive PyErr where
  | typeErrorUnhashable
deriving DecidableEq

deriving instance DecidableEq for Except

/-- The members argument of create_room: absent (None, the only shape
for which the mis-indented body runs), an explicit list, or any other
single value — the latter two skip the 'if members is None:' suite
entirely. -/
inductive MembersArg where
  | noneArg
  | many (l : List String)
  | one (s : String)
deriving DecidableEq

/-- One entry of MatchManager.active_rooms: the room_data dict built in
create_room. ws_connections holds websocket handles, modelled by Nat
identities; created_at is datetime.now() in seconds. -/
structure RoomData where
  members : List String
  ws_connections : List Nat
  created_at : Nat
  bot_enabled : Bool
deriving DecidableEq

/-- MatchManager state. admin_config is an Optional[AdminConfig] used by
the modelled operations only through getattr(self.admin_config,
'bot_enabled', False); it is modelled as the linked config's bot_enabled
flag (none when no config is linked). total_sessions is never read and
is omitted. -/
structure MatchManager where
  group_size : Nat
  queues : List (String × List String)
  active_rooms : List (RoomKey × RoomData)
  user_to_room : List (String × String)
  user_to_queue : List (String × String)
  admin_config : Option Bool
deriving DecidableEq

/-- MatchManager(group_size) after set_admin_config linking a config with
bot_enabled = b, as module start-up does in main.py. -/
def mmInit (group_size : Nat) (b : Bool) : MatchManager :=
  ⟨group_size, [], [], [], [], some b⟩

/-- The queue list self.queues.get(condition, []). -/
def queueOf (self : MatchManager) (condition : String) : List String :=
  (dictGet self.queues condition).getD []

/-- MatchManager.create_room(room_id, members). The source body is
mis-indented: the dict install and the return statement sit inside the
'if members is None:' suite. So a call with an explicit members argument
(list or otherwise) runs nothing and falls off the function end,
returning None with the registry untouched. Only when members is None
does the suite run: members is first set to [], so the install always
stores an empty member list ([].copy() via the isinstance branch); the
assignment self.active_rooms[room_id] with a list key raises TypeError
before any mutation, and with a string key it unconditionally installs
the fresh room_data dict, overwriting any room already stored under that
id, then returns the id. -/
def create_room (self : MatchManager) (room_id : RoomKey) (members : MembersArg)
    (now : Nat) : MatchManager × Except PyErr (Option RoomKey) :=
  match members with
  | .many _ | .one _ => (self, .ok none)
  | .noneArg =>
    match room_id with
    | .strList _ => (self, .error .typeErrorUnhashable)
    | .str _ =>
      let room : RoomData := ⟨[], [], now, self.admin_config.getD false⟩
      ({self with active_rooms := dictSet self.active_rooms room_id room},
       .ok (some room_id))

/-- MatchManager.match_group(condition): takes the first group_size
entries off the queue, then calls self.create_room(group) — the matched
group lands in the room_id parameter, so the dict assignment inside
create_room raises TypeError; the queue splice performed before the call
is kept (CPython does not roll back), and the loop deleting the matched
uids from user_to_queue is never reached. -/
def match_group (self : MatchManager) (condition : String) (now : Nat) :
    MatchManager × Except PyErr (Option String) :=
  let queue := queueOf self condition
  if queue.length < self.group_size then (self, .ok none)
  else
    let group := queue.take self.group_size
    let self := {self with
      queues := dictSet self.queues condition (queue.drop self.group_size)}
    match create_room self (.strList group) .noneArg now with
    | (self, .error e) => (self, .error e)
    | (self, .ok _) =>
      let self := {self with
        user_to_queue := group.foldl (fun d u => dictDel d u) self.user_to_queue}
      let partner_id := match group with
        | _ :: p :: _ => some p
        | _ => none
      (self, .ok partner_id)

/-- The first two lines of MatchManager.join_queue: if condition not in
self.queues, install an empty queue for it. -/
def ensure_queue (self : MatchManager) (condition : String) : MatchManager :=
  if (dictGet self.queues condition).isNone
    then {self with queues := dictSet self.queues condition []} else self

/-- The remainder of MatchManager.join_queue after the queue-existence
step: refuse a uid already in the reverse queue index, append and record
the uid, and call match_group once the queue reaches group_size. -/
def join_queue_body (self : MatchManager) (uid condition : String) (now : Nat) :
    MatchManager × Except PyErr (Option String) :=
  if (dictGet self.user_to_queue uid).isSome then (self, .ok none)
  else
    let queue := queueOf self condition ++ [uid]
    let self := {self with
      queues := dictSet self.queues condition queue,
      user_to_queue := dictSet self.user_to_queue uid condition}
    if self.group_size ≤ queue.length then match_group self condition now
    else (self, .ok none)

/-- MatchManager.join_queue(uid, condition), composed of its two
sequential steps. -/
def join_queue (self : MatchManager) (uid condition : String) (now : Nat) :
    MatchManager × Except PyErr (Option String) :=
  join_queue_body (ensure_queue self condition) uid condition now

/-- MatchManager.leave_queue(uid, condition): removes the first
occurrence of uid from that condition's queue if present, then deletes
uid from the reverse index unconditionally. -/
def leave_queue (self : MatchManager) (uid condition : String) : MatchManager :=
  let self := match dictGet self.queues condition with
    | some q =>
      if uid ∈ q then {self with queues := dictSet self.queues condition (q.erase uid)}
      else self
    | none => self
  if (dictGet self.user_to_queue uid).isSome
    then {self with user_to_queue := dictDel self.user_to_queue uid} else self

/-- MatchManager.end_room(room_id): deletes each member's user_to_room
entry, then the room itself; a no-op on an unknown room. -/
def end_room (self : MatchManager) (room_id : RoomKey) : MatchManager :=
  match dictGet self.active_rooms room_id with
  | none => self
  | some room =>
    let utr := room.members.foldl
      (fun d u => if (dictGet d u).isSome then dictDel d u else d)
      self.user_to_room
    {self with user_to_room := utr, active_rooms := dictDel self.active_rooms room_id}

/-! ## main.py: connection open and the delayed bot reply task -/

/-- The connection-open portion of websocket_endpoint(room_id, uid): the
only registry mutation is appending the websocket handle to
ws_connections when the room already exists. No room is created, no
member is added, no reverse index is written. uid is used only for
logging. -/
def websocket_connect (m : MatchManager) (room_id : RoomKey) (uid : String)
    (websocket : Nat) : MatchManager :=
  match dictGet m.active_rooms room_id with
  | some room =>
    let room : RoomData := {room with ws_connections := room.ws_connections ++ [websocket]}
    {m with active_rooms := dictSet m.active_rooms room_id room}
  | none =>
    let _ := uid
    m

/-- The environment observed by one run of bot_reply_task in main.py.
bot_enabled_at_start is admin_config.bot_enabled at the moment the task
body begins (read by the guard before the sleep); bot_enabled_after_delay
is its value once the bot_delay sleep has elapsed — the code never reads
it, which is what claim C5 is about. bot says whether the bot instance
captured at connection time is non-None; bot_reply is the string returned
by bot.generate_response; room_connections is the room's ws_connections
if room_id is still in active_rooms; context is get_context(room_id). -/
structure BotTaskEnv where
  bot_enabled_at_start : Bool
  bot_enabled_after_delay : Bool
  bot : Bool
  bot_reply : Option String
  room_connections : Option (List Nat)
  context : Option ConversationContext
deriving DecidableEq

/-- bot_reply_task(room_id, user_id, user_message, bot) in main.py,
returning the messages sent over connections and the room context after
the run. The pre-sleep guard returns when bot_enabled is off at task
start; after the sleep only the bot instance is rechecked (not
bot_enabled); `if not bot_reply` also drops an empty-string reply;
broadcast happens only if the room is still registered; the context
append happens only if a context exists. timestamp/now feed the
add_message call. -/
def bot_reply_task (env : BotTaskEnv) (room_id user_id user_message : String)
    (bot_name timestamp : String) (now : Nat) :
    List (Nat × String) × Option ConversationContext :=
  let _ := room_id
  let _ := user_id
  let _ := user_message
  if env.bot_enabled_at_start = false then ([], env.context)
  else
    -- await asyncio.sleep(admin_config.bot_delay): env.bot_enabled_after_delay
    -- is the flag's value from here on; the code takes no further look at it.
    if env.bot = false then ([], env.context)
    else
      match env.bot_reply with
      | none => ([], env.context)
      | some reply =>
        if reply = "" then ([], env.context)
        else
          let formatted := bot_name ++ ": " ++ reply
          let sends := match env.room_connections with
            | some conns => conns.map (fun c => (c, formatted))
            | none => []
          let context := env.context.map
            (fun c => add_message c bot_name reply timestamp now)
          (sends, context)

/-! ## Invariants and concrete states used by the claims -/

/-- Every uid in every queue, in order. -/
abbrev allQueued (s : MatchManager) : List String :=
  (s.queues.map Prod.snd).flatten

/-- Claim C4 part one: each participant id appears in at most one
condition's queue, and at most once within it. -/
abbrev QInvOnce (s : MatchManager) : Prop := (allQueued s).Nodup

/-- Claim C4 part two, forward direction: every queued uid is recorded in
the reverse index under its queue's condition. -/
abbrev QInvIndexed (s : MatchManager) : Prop :=
  ∀ p ∈ s.queues, ∀ uid ∈ p.2, dictGet s.user_to_queue uid = some p.1

/-- Claim C4 part two, backward direction: every reverse-index entry
points at a queue that contains the uid. -/
abbrev QInvSound (s : MatchManager) : Prop :=
  ∀ q ∈ s.user_to_queue, q.1 ∈ queueOf s q.2

/-- Claim C4 part three: a participant owning a room (present in
user_to_room) is in no queue. -/
abbrev QInvNoRoom (s : MatchManager) : Prop :=
  ∀ r ∈ s.user_to_room, ∀ p ∈ s.queues, r.1 ∉ p.2

/-- The queue/room invariant of claim C4. -/
abbrev QueueInvariant (s : MatchManager) : Prop :=
  QInvOnce s ∧ QInvIndexed s ∧ QInvSound s ∧ QInvNoRoom s

/-- Turn numbers are the dense sequence 1..N (claim C6). -/
abbrev TurnsDense (c : ConversationContext) : Prop :=
  c.messages.map Msg.turn = List.range' 1 c.messages.length

/-- A reachable context with three messages, turns 1, 2, 3 (for C6). -/
def c6ctx : ConversationContext :=
  ⟨"r", [⟨"u", "x", "t", 1⟩, ⟨"u", "y", "t", 2⟩, ⟨"u", "z", "t", 3⟩], [], 0, 0⟩

/-- A registry holding one live room with a member and a connection
(for C3). -/
def c3state : MatchManager :=
  {mmInit 2 true with active_rooms := [(.str "r", ⟨["a"], [7], 0, true⟩)]}

/-- A registry with one queued participant, index in sync (for C4). -/
def c4state : MatchManager :=
  {mmInit 2 true with queues := [("c1", ["a"])], user_to_queue := [("a", "c1")]}

/-- A bot task environment in which the bot was enabled when the task
started and was switched off during the delay (for C5). -/
def c5env : BotTaskEnv :=
  ⟨true, false, true, some "hello", some [1, 2], some (contextInit "r" 0)⟩

/-- A bot task environment in which the bot was already disabled when the
task started (witness input for C5). -/
def c5wenv : BotTaskEnv :=
  ⟨false, true, true, some "x", some [1], none⟩

/-! ## Helper lemmas about the Python primitives -/

theorem dictGet_mem {α β : Type} [DecidableEq α] {d : List (α × β)} {k : α} {v : β}
    (h : dictGet d k = some v) : (k, v) ∈ d := by
  induction d with
  | nil => simp [dictGet] at h
  | cons p rest ih =>
    rw [dictGet] at h
    by_cases hp : p.1 = k
    · rw [if_pos hp] at h
      obtain ⟨a, b⟩ := p
      obtain rfl : a = k := hp
      injection h with hv
      subst hv
      exact List.mem_cons_self _ _
    · rw [if_neg hp] at h
      exact List.mem_cons_of_mem _ (ih h)

/-- Structure of dictSet: either the key is present and exactly its first
occurrence is replaced, or the key is absent and the entry is appended. -/
theorem dictSet_structure {α β : Type} [DecidableEq α] (d : List (α × β)) (k : α) (v : β) :
    (∃ d₁ d₂ v₀, d = d₁ ++ (k, v₀) :: d₂ ∧ (∀ p ∈ d₁, p.1 ≠ k) ∧
      dictSet d k v = d₁ ++ (k, v) :: d₂ ∧ dictGet d k = some v₀) ∨
    ((∀ p ∈ d, p.1 ≠ k) ∧ dictSet d k v = d ++ [(k, v)] ∧ dictGet d k = none) := by
  induction d with
  | nil => right; simp [dictSet, dictGet]
  | cons p rest ih =>
    by_cases hp : p.1 = k
    · left
      refine ⟨[], rest, p.2, ?_, by simp, ?_, ?_⟩
      · cases p; simp_all
      · simp [dictSet, hp]
      · simp [dictGet, hp]
    · rcases ih with ⟨d₁, d₂, v₀, hd, hne, hset, hget⟩ | ⟨hne, hset, hget⟩
      · left
        refine ⟨p :: d₁, d₂, v₀, by rw [hd]; rfl, ?_, ?_, ?_⟩
        · intro q hq
          rcases List.mem_cons.mp hq with rfl | hq
          · exact hp
          · exact hne q hq
        · simp [dictSet, hp, hset]
        · simp [dictGet, hp, hget]
      · right
        refine ⟨?_, ?_, ?_⟩
        · intro q hq
          rcases List.mem_cons.mp hq with rfl | hq
          · exact hp
          · exact hne q hq
        · simp [dictSet, hp, hset]
        · simp [dictGet, hp, hget]

theorem dictGet_dictSet_self {α β : Type} [DecidableEq α] (d : List (α × β)) (k : α) (v : β) :
    dictGet (dictSet d k v) k = some v := by
  induction d with
  | nil => simp [dictSet, dictGet]
  | cons p rest ih =>
    by_cases hp : p.1 = k
    · simp [dictSet, hp, dictGet]
    · simp [dictSet, hp, dictGet, ih]

theorem dictGet_dictSet_ne {α β : Type} [DecidableEq α] (d : List (α × β)) (k k' : α) (v : β)
    (h : k' ≠ k) : dictGet (dictSet d k v) k' = dictGet d k' := by
  induction d with
  | nil =>
    simp only [dictSet, dictGet]
    rw [if_neg (Ne.symm h)]
  | cons p rest ih =>
    by_cases hp : p.1 = k
    · simp only [dictSet, if_pos hp, dictGet]
      rw [if_neg (Ne.symm h), if_neg (show ¬ p.1 = k' by rw [hp]; exact Ne.symm h)]
    · simp only [dictSet, if_neg hp, dictGet]
      by_cases hp' : p.1 = k'
      · rw [if_pos hp', if_pos hp']
      · rw [if_neg hp', if_neg hp', ih]

theorem mem_dictSet {α β : Type} [DecidableEq α] {d : List (α × β)} {k : α} {v : β}
    {p : α × β} (h : p ∈ dictSet d k v) : p = (k, v) ∨ p ∈ d := by
  rcases dictSet_structure d k v with ⟨d₁, d₂, v₀, hd, _, hset, _⟩ | ⟨_, hset, _⟩
  · rw [hset] at h
    rcases List.mem_append.mp h with h1 | h1
    · right; rw [hd]; exact List.mem_append_left _ h1
    · rcases List.mem_cons.mp h1 with rfl | h2
      · left; rfl
      · right; rw [hd]; exact List.mem_append_right _ (List.mem_cons_of_mem _ h2)
  · rw [hset] at h
    rcases List.mem_append.mp h with h1 | h1
    · right; exact h1
    · left; simpa using h1

theorem mem_dictDel {α β : Type} [DecidableEq α] {d : List (α × β)} {k : α}
    {p : α × β} (h : p ∈ dictDel d k) : p ∈ d ∧ p.1 ≠ k := by
  have := List.mem_filter.mp h
  refine ⟨this.1, ?_⟩
  simpa using this.2

theorem dictGet_dictDel_ne {α β : Type} [DecidableEq α] (d : List (α × β)) (k k' : α)
    (h : k' ≠ k) : dictGet (dictDel d k) k' = dictGet d k' := by
  induction d with
  | nil => rfl
  | cons p rest ih =>
    by_cases hp : p.1 = k
    · have hdel : dictDel (p :: rest) k = dictDel rest k := by
        simp [dictDel, List.filter, hp]
      rw [hdel, ih]
      have hne : ¬ p.1 = k' := by rw [hp]; exact Ne.symm h
      simp [dictGet, hne]
    · have hdel : dictDel (p :: rest) k = p :: dictDel rest k := by
        simp [dictDel, List.filter, hp]
      rw [hdel]
      by_cases hp' : p.1 = k'
      · simp [dictGet, hp']
      · simp [dictGet, hp', ih]

theorem pyLastN_length_le {α : Type} (l : List α) (n : Nat) :
    (pyLastN l n).length ≤ l.length := by
  unfold pyLastN
  split
  · exact Nat.le_refl _
  · simp

theorem pyLastN_suffix {α : Type} (l : List α) (n : Nat) :
    (pyLastN l n).IsSuffix l := by
  unfold pyLastN
  split
  · exact List.suffix_refl l
  · exact List.drop_suffix _ l

theorem pyLastN_length_of_pos {α : Type} (l : List α) (n : Nat) (h : 0 < n) :
    (pyLastN l n).length = min n l.length := by
  unfold pyLastN
  rw [if_neg (Nat.pos_iff_ne_zero.mp h)]
  simp [List.length_drop]
  omega

/-! ## C7: keyword extraction -/

/-- C7 counterexample: the claim names "there" and "how" as extracted
tokens of "hi there, how are you?", but both are in the stopword set
("how" is listed outright, and "there" would be too), and tokenization
does not strip punctuation, so neither bare word is produced. -/
theorem C7_counterexample :
    "how" ∉ extract_keywords "hi there, how are you?" ∧
    "there" ∉ extract_keywords "hi there, how are you?" := by
  decide

/-- C7 amended: extraction lower-cases, splits on whitespace, keeps
exactly the tokens of length > 2 outside the stopword set, and
deduplicates; punctuation is not stripped and "how"/"there" are
stopwords, so "hi there, how are you?" yields exactly the tokens
"there," and "you?". -/
theorem C7_extract_keywords :
    extract_keywords "hi there, how are you?" = ["there,", "you?"] ∧
    (∀ text w, w ∈ extract_keywords text ↔
      (w ∈ py_split (pyLower text) ∧ 2 < w.data.length ∧ w ∉ stopwords)) := by
  constructor
  · decide
  · intro text w
    unfold extract_keywords
    simp only [List.mem_dedup, List.mem_filter, decide_eq_true_eq]

/-! ## C8: the is_active flag of get_statistics -/

/-- C8: the code computes is_active from timedelta.seconds, which wraps
at one day; a context exactly 86400 seconds stale is reported active even
though far more than 300 seconds have elapsed, contradicting the claimed
"true iff elapsed < 300" for elapsed times of one day or more. -/
theorem C8_is_active_wraps_at_one_day :
    (get_statistics (contextInit "r" 0) 86400).is_active = true ∧
    ¬ (86400 - (contextInit "r" 0).last_activity < 300) := by
  decide

/-! ## C9: to_dict versus get_statistics -/

/-- C9: the exported snapshot truncates the message list to the most
recent 100 (a suffix of the log of length min 100 N), while its
total_turns / active_participants counts and its embedded summary are
computed from the full in-memory log and therefore coincide with live
get_statistics. -/
theorem C9_export_counts_match_live_statistics
    (self : ConversationContext) (now : Nat) :
    (to_dict self now).total_turns = (get_statistics self now).total_messages ∧
    (to_dict self now).active_participants =
      (get_statistics self now).total_participants ∧
    (to_dict self now).summary = get_statistics self now ∧
    (to_dict self now).messagesExport.length = min 100 self.messages.length ∧
    (to_dict self now).messagesExport.IsSuffix self.messages := by
  refine ⟨rfl, rfl, rfl, ?_, ?_⟩
  · simpa using pyLastN_length_of_pos self.messages 100 (by norm_num)
  · show pyLastN self.messages 100 <:+ self.messages
    exact pyLastN_suffix _ _

theorem renumberFrom_length (n : Nat) (ms : List Msg) :
    (renumberFrom n ms).length = ms.length := by
  induction ms generalizing n with
  | nil => rfl
  | cons m ms ih => simp [renumberFrom, ih]

/-- The message list produced by add_message: the (possibly evicted and
renumbered) old log with the new message appended, its turn one past the
base length. -/
theorem add_message_messages_eq (self : ConversationContext)
    (sender text ts : String) (now : Nat) :
    (add_message self sender text ts now).messages =
      (if MAX_MESSAGES_PER_ROOM ≤ self.messages.length
       then renumberFrom 1 (self.messages.drop 1) else self.messages) ++
      [⟨sender, text, ts,
        (if MAX_MESSAGES_PER_ROOM ≤ self.messages.length
         then renumberFrom 1 (self.messages.drop 1) else self.messages).length + 1⟩] := by
  unfold add_message
  by_cases hcap : MAX_MESSAGES_PER_ROOM ≤ self.messages.length <;>
    simp only [hcap, if_true, if_false, ite_true, ite_false] <;>
    split <;> rfl

/-- The profile table produced by add_message: updated for the sender
exactly when the sender does not match the fixed bot-name test. -/
theorem add_message_user_profiles_eq (self : ConversationContext)
    (sender text ts : String) (now : Nat) :
    (add_message self sender text ts now).user_profiles =
      if pyLower sender ≠ "bot" ∧ py_startswith sender "Bot" = false
      then update_profile self.user_profiles sender text ts
      else self.user_profiles := by
  unfold add_message
  by_cases hcap : MAX_MESSAGES_PER_ROOM ≤ self.messages.length <;>
    simp only [hcap, if_true, if_false, ite_true, ite_false] <;>
    split <;> rfl

/-- update_profile bumps the sender's message count by one (from zero for
a first-time sender). -/
theorem update_profile_count (profiles : List (String × UserProfile))
    (sender text timestamp : String) :
    (dictGet (update_profile profiles sender text timestamp) sender).map
        UserProfile.message_count =
      some (((dictGet profiles sender).map UserProfile.message_count).getD 0 + 1) := by
  unfold update_profile
  cases hg : dictGet profiles sender with
  | none =>
    simp only [hg, Option.isNone_none, if_true, ite_true,
      dictGet_dictSet_self, Option.getD_some, dictGet_dictSet_self]
    simp [dictGet_dictSet_self]
  | some p =>
    simp only [hg, Option.isNone_some, if_false, ite_false,
      Option.getD_some]
    simp [hg, dictGet_dictSet_self]

/-! ## C10: bot senders are logged but not profiled -/

/-- C10: a sender equal to "bot" case-insensitively or starting with the
literal "Bot" still has its message appended to the log with its turn
assigned, while user_profiles is left untouched; the test is this fixed
name pattern (add_message takes no configured bot name at all), so a
sender matching neither test — whatever display name the bot was
configured with — is profiled like a regular user, its message count
incremented. -/
theorem C10_bot_name_pattern_skips_profiling (self : ConversationContext)
    (sender1 sender2 text ts : String) (now : Nat)
    (h1 : pyLower sender1 = "bot" ∨ py_startswith sender1 "Bot" = true)
    (h2 : pyLower sender2 ≠ "bot") (h3 : py_startswith sender2 "Bot" = false) :
    (add_message self sender1 text ts now).user_profiles = self.user_profiles ∧
    (add_message self sender1 text ts now).messages.getLast? =
      some ⟨sender1, text, ts, (add_message self sender1 text ts now).messages.length⟩ ∧
    (dictGet (add_message self sender2 text ts now).user_profiles sender2).map
        UserProfile.message_count =
      some (((dictGet self.user_profiles sender2).map
        UserProfile.message_count).getD 0 + 1) := by
  refine ⟨?_, ?_, ?_⟩
  · rw [add_message_user_profiles_eq]
    rcases h1 with h1 | h1
    · rw [if_neg]
      intro hc
      exact hc.1 h1
    · rw [if_neg]
      intro hc
      rw [h1] at hc
      exact absurd hc.2 (by simp)
  · rw [add_message_messages_eq]
    simp
  · rw [add_message_user_profiles_eq, if_pos ⟨h2, h3⟩]
    exact update_profile_count _ _ _ _

/-- C10 witness: sender "Botty" (matches the literal-prefix test) is not
profiled while its message lands in the log; sender "alice" is. -/
theorem C10_witness :
    (pyLower "Botty" = "bot" ∨ py_startswith "Botty" "Bot" = true) ∧
    pyLower "alice" ≠ "bot" ∧ py_startswith "alice" "Bot" = false ∧
    ((add_message (contextInit "r" 0) "Botty" "hello" "t" 1).user_profiles =
        (contextInit "r" 0).user_profiles ∧
      (add_message (contextInit "r" 0) "Botty" "hello" "t" 1).messages.getLast? =
        some ⟨"Botty", "hello", "t",
          (add_message (contextInit "r" 0) "Botty" "hello" "t" 1).messages.length⟩ ∧
      (dictGet (add_message (contextInit "r" 0) "alice" "hello" "t" 1).user_profiles
          "alice").map UserProfile.message_count =
        some (((dictGet (contextInit "r" 0).user_profiles "alice").map
          UserProfile.message_count).getD 0 + 1)) :=
  ⟨by decide, by decide, by decide,
   C10_bot_name_pattern_skips_profiling (contextInit "r" 0) "Botty" "alice"
     "hello" "t" 1 (by decide) (by decide) (by decide)⟩

theorem renumberFrom_map_turn (n : Nat) (ms : List Msg) :
    (renumberFrom n ms).map Msg.turn = List.range' n ms.length := by
  induction ms generalizing n with
  | nil => rfl
  | cons m ms ih => simp [renumberFrom, List.range', ih]

/-! ## C6: message cap and turn renumbering -/

/-- C6 counterexample: on a context whose log holds turns 1, 2, 3,
clear_old_messages (an eviction, cited by the claim) keeps the last two
messages without renumbering, leaving turns 2, 3 — dense and ascending
but not starting at 1. -/
theorem C6_counterexample :
    (clear_old_messages c6ctx 2).1.messages.map Msg.turn = [2, 3] ∧
    ¬ TurnsDense (clear_old_messages c6ctx 2).1 := by
  decide

/-- C6 amended: from a log within the 1000 cap with dense turns 1..N,
add_message keeps the length within the cap and restores dense turns
1..N (its eviction branch renumbers before appending), while
clear_old_messages only shrinks the log, keeping a suffix of it with the
original turn values — so turns stay dense and ascending but start at
the first kept message's old turn rather than at 1. -/
theorem C6_cap_and_renumbering (self : ConversationContext)
    (sender text ts : String) (now keep_last : Nat)
    (h1 : self.messages.length ≤ MAX_MESSAGES_PER_ROOM)
    (h2 : TurnsDense self) :
    (add_message self sender text ts now).messages.length ≤ MAX_MESSAGES_PER_ROOM ∧
    TurnsDense (add_message self sender text ts now) ∧
    (clear_old_messages self keep_last).1.messages.length ≤ self.messages.length ∧
    (clear_old_messages self keep_last).1.messages.IsSuffix self.messages := by
  have hmsg := add_message_messages_eq self sender text ts now
  refine ⟨?_, ?_, ?_, ?_⟩
  · rw [hmsg]
    by_cases hcap : MAX_MESSAGES_PER_ROOM ≤ self.messages.length
    · rw [if_pos hcap]
      simp only [List.length_append, List.length_cons, List.length_nil,
        renumberFrom_length, List.length_drop]
      unfold MAX_MESSAGES_PER_ROOM at h1 hcap ⊢
      omega
    · rw [if_neg hcap]
      simp only [List.length_append, List.length_cons, List.length_nil]
      omega
  · unfold TurnsDense
    rw [hmsg]
    by_cases hcap : MAX_MESSAGES_PER_ROOM ≤ self.messages.length
    · rw [if_pos hcap]
      rw [List.map_append]
      simp only [List.map_cons, List.map_nil, renumberFrom_map_turn,
        List.length_append, List.length_cons, List.length_nil,
        renumberFrom_length]
      rw [List.range'_concat]
      simp [Nat.add_comm]
    · rw [if_neg hcap]
      rw [List.map_append]
      unfold TurnsDense at h2
      simp only [List.map_cons, List.map_nil, h2, List.length_append,
        List.length_cons, List.length_nil]
      rw [List.range'_concat]
      simp [Nat.add_comm]
  · unfold clear_old_messages
    split
    · exact pyLastN_length_le _ _
    · exact Nat.le_refl _
  · unfold clear_old_messages
    split
    · exact pyLastN_suffix _ _
    · exact List.suffix_refl _

/-- C6 witness: the amended statement evaluated on a small concrete
context with turns 1, 2, 3. -/
theorem C6_witness :
    c6ctx.messages.length ≤ MAX_MESSAGES_PER_ROOM ∧ TurnsDense c6ctx ∧
    ((add_message c6ctx "u" "w" "t" 1).messages.length ≤ MAX_MESSAGES_PER_ROOM ∧
      TurnsDense (add_message c6ctx "u" "w" "t" 1) ∧
      (clear_old_messages c6ctx 2).1.messages.length ≤ c6ctx.messages.length ∧
      (clear_old_messages c6ctx 2).1.messages.IsSuffix c6ctx.messages) :=
  ⟨by decide, by decide,
   C6_cap_and_renumbering c6ctx "u" "w" "t" 1 2 (by decide) (by decide)⟩

/-! ## C3: create_room is not idempotent -/

/-- C3 counterexample: calling create_room for an id that already holds a
live room (members ["a"], one connection) with the members argument left
at its default replaces the entry wholesale — the member list is reset
to [] and the connection set emptied — so the existing room is not
returned unchanged and its membership and live connections are
re-initialized. -/
theorem C3_counterexample :
    dictGet (create_room c3state (.str "r") .noneArg 5).1.active_rooms
        (.str "r") = some ⟨[], [], 5, true⟩ ∧
    dictGet c3state.active_rooms (.str "r") = some ⟨["a"], [7], 0, true⟩ ∧
    ¬ (dictGet (create_room c3state (.str "r") .noneArg 5).1.active_rooms
        (.str "r") = dictGet c3state.active_rooms (.str "r")) := by
  decide

/-- C3 amended: create_room never consults the registry, and in neither
branch does it return an existing room unchanged. With an explicit
members argument the whole body (nested under the mis-indented
'if members is None:') is skipped: the state is completely untouched and
None is returned instead of the room. With members omitted it
unconditionally installs a fresh record under the id — empty member
list, empty connection set, new creation time, current bot_enabled —
clobbering any existing room's members and live connections, and
returns the id; rooms under other ids and the queue structures are
never touched. -/
theorem C3_create_room_overwrites (self : MatchManager) (rid : String)
    (now : Nat) :
    (∀ members, members ≠ MembersArg.noneArg →
      (create_room self (.str rid) members now).1 = self ∧
      (create_room self (.str rid) members now).2 = .ok none) ∧
    (create_room self (.str rid) .noneArg now).2 = .ok (some (.str rid)) ∧
    dictGet (create_room self (.str rid) .noneArg now).1.active_rooms (.str rid) =
      some ⟨[], [], now, self.admin_config.getD false⟩ ∧
    (∀ k, k ≠ RoomKey.str rid →
      dictGet (create_room self (.str rid) .noneArg now).1.active_rooms k =
        dictGet self.active_rooms k) ∧
    (create_room self (.str rid) .noneArg now).1.queues = self.queues ∧
    (create_room self (.str rid) .noneArg now).1.user_to_queue = self.user_to_queue ∧
    (create_room self (.str rid) .noneArg now).1.user_to_room = self.user_to_room := by
  refine ⟨?_, rfl, ?_, ?_, rfl, rfl, rfl⟩
  · intro members hm
    cases members with
    | noneArg => exact absurd rfl hm
    | many l => exact ⟨rfl, rfl⟩
    | one m => exact ⟨rfl, rfl⟩
  · exact dictGet_dictSet_self _ _ _
  · intro k hk
    exact dictGet_dictSet_ne _ _ _ _ hk

/-- C3 witness: the amended statement applied at a fresh registry — the
no-op conjunct instantiated at an explicit member list, the other-id
conjunct at a distinct id. -/
theorem C3_witness :
    ((create_room (mmInit 2 true) (.str "r") (.many ["b"]) 0).1 = mmInit 2 true ∧
      (create_room (mmInit 2 true) (.str "r") (.many ["b"]) 0).2 = .ok none) ∧
    dictGet (create_room (mmInit 2 true) (.str "r") .noneArg 0).1.active_rooms
        (.str "q") = dictGet (mmInit 2 true).active_rooms (.str "q") :=
  ⟨(C3_create_room_overwrites (mmInit 2 true) "r" 0).1 (.many ["b"]) (by decide),
   (C3_create_room_overwrites (mmInit 2 true) "r" 0).2.2.2.1 (.str "q") (by decide)⟩

/-! ## C2: connection open does not create rooms or members -/

/-- C2 counterexample: opening a connection for an unknown room id on a
fresh registry changes nothing — no room is created, no member recorded,
no user_to_room entry written — contradicting the claimed lobby
semantics. -/
theorem C2_counterexample :
    websocket_connect (mmInit 2 true) (.str "room1") "alice" 1 = mmInit 2 true ∧
    dictGet (websocket_connect (mmInit 2 true) (.str "room1") "alice" 1).active_rooms
      (.str "room1") = none ∧
    dictGet (websocket_connect (mmInit 2 true) (.str "room1") "alice" 1).user_to_room
      "alice" = none := by
  decide

/-- C2 amended: on connection open the handler only appends the
connection handle to the room's connection set when the room already
exists (a missing room id leaves the state untouched); membership of
every room, the user_to_room reverse index and the queue index are never
modified. -/
theorem C2_connect_appends_connection_only (m : MatchManager) (rid : RoomKey)
    (uid : String) (ws : Nat) :
    (websocket_connect m rid uid ws).user_to_room = m.user_to_room ∧
    (websocket_connect m rid uid ws).user_to_queue = m.user_to_queue ∧
    (∀ k, (dictGet (websocket_connect m rid uid ws).active_rooms k).map
        RoomData.members = (dictGet m.active_rooms k).map RoomData.members) ∧
    dictGet (websocket_connect m rid uid ws).active_rooms rid =
      (dictGet m.active_rooms rid).map
        (fun room => {room with ws_connections := room.ws_connections ++ [ws]}) := by
  unfold websocket_connect
  cases hg : dictGet m.active_rooms rid with
  | none => exact ⟨rfl, rfl, fun k => rfl, by simp [hg]⟩
  | some room =>
    refine ⟨rfl, rfl, ?_, ?_⟩
    · intro k
      by_cases hk : k = rid
      · subst hk
        simp [dictGet_dictSet_self, hg]
      · simp [dictGet_dictSet_ne _ _ _ _ hk]
    · simp [dictGet_dictSet_self, hg]

/-! ## C1: the two-participant match scenario -/

/-- C1: with group_size 2, enqueueing "a" reports waiting, but enqueueing
"b" does not return the matched group: match_group passes the matched
list ["a", "b"] as create_room's room_id parameter, the dict assignment
on the unhashable list key raises TypeError, and the call errors out with
no room registered, no user_to_room entries, both uids still stuck in
user_to_queue, and the queue itself already spliced empty. -/
theorem C1_match_crashes_instead_of_pairing :
    (join_queue (mmInit 2 true) "a" "default" 0).2 = .ok none ∧
    (join_queue (join_queue (mmInit 2 true) "a" "default" 0).1
        "b" "default" 0).2 = .error .typeErrorUnhashable ∧
    (join_queue (join_queue (mmInit 2 true) "a" "default" 0).1
        "b" "default" 0).1.active_rooms = [] ∧
    (join_queue (join_queue (mmInit 2 true) "a" "default" 0).1
        "b" "default" 0).1.user_to_room = [] ∧
    dictGet (join_queue (join_queue (mmInit 2 true) "a" "default" 0).1
        "b" "default" 0).1.user_to_queue "a" = some "default" ∧
    dictGet (join_queue (join_queue (mmInit 2 true) "a" "default" 0).1
        "b" "default" 0).1.user_to_queue "b" = some "default" ∧
    queueOf (join_queue (join_queue (mmInit 2 true) "a" "default" 0).1
        "b" "default" 0).1 "default" = [] := by
  decide

/-! ## C5: bot disabled during the delay -/

/-- C5 counterexample: in an environment where the bot was enabled when
the task started and was disabled during the delay, the reply is still
broadcast to every connection and still appended to the room context —
the post-delay checkpoint does not re-read bot_enabled. -/
theorem C5_counterexample :
    c5env.bot_enabled_after_delay = false ∧
    (bot_reply_task c5env "r" "alice" "hi" "Bot" "t" 9).1 =
      [(1, "Bot: hello"), (2, "Bot: hello")] ∧
    ((bot_reply_task c5env "r" "alice" "hi" "Bot" "t" 9).2.map
      (fun c => c.messages.length)) = some 1 := by
  decide

/-- C5 amended: the bot_enabled guard runs before the delay: if the flag
is off when the task starts, nothing is broadcast and the context is
untouched; the value the flag holds after the delay is never read, so
the task's entire outcome is independent of it — a flip during the delay
is not detected. -/
theorem C5_disable_checked_before_delay_only (env : BotTaskEnv)
    (room_id user_id user_message bot_name ts : String) (now : Nat)
    (h : env.bot_enabled_at_start = false) :
    bot_reply_task env room_id user_id user_message bot_name ts now =
      ([], env.context) ∧
    (∀ b, bot_reply_task {env with bot_enabled_after_delay := b}
        room_id user_id user_message bot_name ts now =
      bot_reply_task env room_id user_id user_message bot_name ts now) := by
  constructor
  · unfold bot_reply_task
    rw [if_pos h]
  · intro b
    unfold bot_reply_task
    rfl

/-- C5 witness: the amended statement evaluated in an environment with
the bot disabled at task start. -/
theorem C5_witness :
    bot_reply_task c5wenv "r" "u" "m" "Bot" "t" 0 = ([], c5wenv.context) ∧
    (∀ b, bot_reply_task {c5wenv with bot_enabled_after_delay := b}
        "r" "u" "m" "Bot" "t" 0 = bot_reply_task c5wenv "r" "u" "m" "Bot" "t" 0) :=
  C5_disable_checked_before_delay_only c5wenv "r" "u" "m" "Bot" "t" 0 (by decide)

/-! ## Supporting lemmas for the queue invariant (C4) -/

theorem dictGet_eq_none_iff {α β : Type} [DecidableEq α] (d : List (α × β)) (k : α) :
    dictGet d k = none ↔ ∀ p ∈ d, p.1 ≠ k := by
  induction d with
  | nil => simp [dictGet]
  | cons p rest ih =>
    by_cases hp : p.1 = k
    · simp [dictGet, hp]
    · simp [dictGet, hp, ih]

theorem dictSet_of_get_none {α β : Type} [DecidableEq α] {d : List (α × β)} {k : α}
    (h : dictGet d k = none) (v : β) : dictSet d k v = d ++ [(k, v)] := by
  rcases dictSet_structure d k v with ⟨d₁, d₂, v₀, _, _, _, hget⟩ | ⟨_, hset, _⟩
  · rw [hget] at h
    cases h
  · exact hset

theorem mem_allQueued_of_entry {s : MatchManager} {p : String × List String}
    {x : String} (hp : p ∈ s.queues) (hx : x ∈ p.2) : x ∈ allQueued s := by
  unfold allQueued
  rw [List.mem_flatten]
  exact ⟨p.2, List.mem_map_of_mem Prod.snd hp, hx⟩

theorem flatten_snd_decomp (d₁ d₂ : List (String × List String))
    (c : String) (q : List String) :
    (((d₁ ++ (c, q) :: d₂).map Prod.snd).flatten) =
      ((d₁.map Prod.snd).flatten) ++ q ++ ((d₂.map Prod.snd).flatten) := by
  simp

theorem nodup_three {A B C : List String} (h : (A ++ B ++ C).Nodup) :
    B.Nodup ∧ (∀ x ∈ A, x ∉ B) ∧ (∀ x ∈ B, x ∉ C) ∧ (∀ x ∈ A, x ∉ C) := by
  rw [List.nodup_append] at h
  obtain ⟨hAB, hC, hdisj⟩ := h
  rw [List.nodup_append] at hAB
  obtain ⟨hA, hB, hab⟩ := hAB
  refine ⟨hB, hab, ?_, ?_⟩
  · intro x hx hxC
    exact hdisj (List.mem_append_right A hx) hxC
  · intro x hx hxC
    exact hdisj (List.mem_append_left B hx) hxC

theorem nodup_insert_middle (F₁ q F₂ : List String) (uid : String)
    (h : (F₁ ++ q ++ F₂).Nodup) (hu : uid ∉ F₁ ++ q ++ F₂) :
    (F₁ ++ (q ++ [uid]) ++ F₂).Nodup := by
  have hperm : (F₁ ++ (q ++ [uid]) ++ F₂).Perm (uid :: (F₁ ++ q ++ F₂)) := by
    have he : F₁ ++ (q ++ [uid]) ++ F₂ = (F₁ ++ q) ++ uid :: F₂ := by simp
    rw [he]
    have hp := @List.perm_middle _ uid (F₁ ++ q) F₂
    have he2 : uid :: (F₁ ++ q ++ F₂) = uid :: ((F₁ ++ q) ++ F₂) := by simp
    rw [he2]
    exact hp
  exact hperm.nodup_iff.mpr (List.nodup_cons.mpr ⟨hu, h⟩)

/-- The first queue entry for a condition, as an entry of the queues
dict, whenever the queue is nonempty. -/
theorem queueOf_entry_mem {s : MatchManager} {c : String}
    (h : queueOf s c ≠ []) : (c, queueOf s c) ∈ s.queues := by
  unfold queueOf at *
  cases hg : dictGet s.queues c with
  | none => rw [hg] at h; simp at h
  | some q => simpa using dictGet_mem hg

theorem end_room_foldl_subset (ms : List String)
    (d : List (String × String)) (r : String × String)
    (hr : r ∈ ms.foldl
      (fun d u => if (dictGet d u).isSome then dictDel d u else d) d) :
    r ∈ d := by
  induction ms generalizing d with
  | nil => exact hr
  | cons m ms ih =>
    have h2 := ih _ hr
    simp only at h2
    by_cases hm : (dictGet d m).isSome = true
    · rw [if_pos hm] at h2
      exact (mem_dictDel h2).1
    · rwa [if_neg hm] at h2

theorem create_room_preserves_invariant (s : MatchManager) (rid : RoomKey)
    (members : MembersArg) (now : Nat) (hInv : QueueInvariant s) :
    QueueInvariant (create_room s rid members now).1 := by
  unfold create_room
  cases members with
  | many l => exact hInv
  | one m => exact hInv
  | noneArg =>
    cases rid with
    | strList l => exact hInv
    | str r => exact hInv

theorem end_room_preserves_invariant (s : MatchManager) (rid : RoomKey)
    (hInv : QueueInvariant s) : QueueInvariant (end_room s rid) := by
  unfold end_room
  cases hg : dictGet s.active_rooms rid with
  | none => exact hInv
  | some room =>
    obtain ⟨h1, h2, h3, h4⟩ := hInv
    refine ⟨h1, h2, h3, ?_⟩
    intro r hr p hp
    exact h4 r (end_room_foldl_subset room.members s.user_to_room r hr) p hp

theorem match_group_noop (s : MatchManager) (condition : String) (now : Nat)
    (h : (queueOf s condition).length < s.group_size) :
    (match_group s condition now).1 = s := by
  unfold match_group
  rw [if_pos h]

theorem leave_queue_preserves_invariant (s : MatchManager) (uid condition : String)
    (hInv : QueueInvariant s)
    (hmatch : ∀ c, dictGet s.user_to_queue uid = some c → c = condition) :
    QueueInvariant (leave_queue s uid condition) := by
  obtain ⟨h1, h2, h3, h4⟩ := hInv
  cases hq : dictGet s.queues condition with
  | none =>
    by_cases hu : (dictGet s.user_to_queue uid).isSome = true
    · exfalso
      obtain ⟨c₀, hc₀⟩ := Option.isSome_iff_exists.mp hu
      rw [hmatch c₀ hc₀] at hc₀
      have := h3 (uid, condition) (dictGet_mem hc₀)
      simp only [queueOf, hq, Option.getD_none] at this
      exact absurd this (List.not_mem_nil uid)
    · have hres : leave_queue s uid condition = s := by
        unfold leave_queue
        simp [hq, hu]
      rw [hres]
      exact ⟨h1, h2, h3, h4⟩
  | some q =>
    have hentry : (condition, q) ∈ s.queues := dictGet_mem hq
    by_cases hin : uid ∈ q
    · have hd : dictGet s.user_to_queue uid = some condition := h2 _ hentry uid hin
      have hres : leave_queue s uid condition =
          {s with queues := dictSet s.queues condition (q.erase uid),
                  user_to_queue := dictDel s.user_to_queue uid} := by
        unfold leave_queue
        simp [hq, hin, hd]
      rw [hres]
      rcases dictSet_structure s.queues condition (q.erase uid) with
        ⟨d₁, d₂, v₀, hdec, hne₁, hset, hget⟩ | ⟨_, _, hget⟩
      · rw [hq] at hget
        injection hget with hget
        subst hget
        have hflat_old : allQueued s =
            (d₁.map Prod.snd).flatten ++ q ++ (d₂.map Prod.snd).flatten := by
          unfold allQueued
          rw [hdec]
          exact flatten_snd_decomp d₁ d₂ condition q
        have h1' : ((d₁.map Prod.snd).flatten ++ q ++ (d₂.map Prod.snd).flatten).Nodup := by
          rw [← hflat_old]
          exact h1
        obtain ⟨hqnd, hF₁q, hqF₂, _⟩ := nodup_three h1'
        refine ⟨?_, ?_, ?_, ?_⟩
        · show ((dictSet s.queues condition (q.erase uid)).map Prod.snd).flatten.Nodup
          rw [hset, flatten_snd_decomp]
          have hsub : List.Sublist
              ((d₁.map Prod.snd).flatten ++ q.erase uid ++ (d₂.map Prod.snd).flatten)
              ((d₁.map Prod.snd).flatten ++ q ++ (d₂.map Prod.snd).flatten) :=
            List.Sublist.append
              (List.Sublist.append (List.Sublist.refl _) (List.erase_sublist uid q))
              (List.Sublist.refl _)
          exact List.Nodup.sublist hsub h1'
        · intro p hp x hx
          rw [hset] at hp
          have hxne : x ≠ uid ∧ dictGet s.user_to_queue x = some p.1 := by
            rcases List.mem_append.mp hp with hp₁ | hp₁
            · have hpent : p ∈ s.queues := by
                rw [hdec]; exact List.mem_append_left _ hp₁
              have hidx := h2 p hpent x hx
              refine ⟨?_, hidx⟩
              intro hxe
              subst hxe
              rw [hd] at hidx
              injection hidx with hpc
              exact hne₁ p hp₁ hpc.symm
            · rcases List.mem_cons.mp hp₁ with rfl | hp₂
              · have hxq := (hqnd.mem_erase_iff).mp hx
                exact ⟨hxq.1, by simpa using h2 _ hentry x hxq.2⟩
              · have hpent : p ∈ s.queues := by
                  rw [hdec]
                  exact List.mem_append_right _ (List.mem_cons_of_mem _ hp₂)
                have hidx := h2 p hpent x hx
                refine ⟨?_, hidx⟩
                intro hxe
                subst hxe
                have hFmem : x ∈ (d₂.map Prod.snd).flatten :=
                  List.mem_flatten.mpr ⟨p.2, List.mem_map_of_mem Prod.snd hp₂, hx⟩
                exact hqF₂ x hin hFmem
          rw [dictGet_dictDel_ne _ _ _ hxne.1]
          exact hxne.2
        · intro e he
          obtain ⟨hes, hene⟩ := mem_dictDel he
          have hold := h3 e hes
          by_cases hc : e.2 = condition
          · rw [hc] at hold ⊢
            show e.1 ∈ (dictGet (dictSet s.queues condition (q.erase uid)) condition).getD []
            rw [dictGet_dictSet_self]
            simp only [Option.getD_some]
            rw [List.mem_erase_of_ne hene]
            simpa [queueOf, hq] using hold
          · show e.1 ∈ (dictGet (dictSet s.queues condition (q.erase uid)) e.2).getD []
            rw [dictGet_dictSet_ne _ _ _ _ hc]
            exact hold
        · intro r hr p hp
          rw [hset] at hp
          rcases List.mem_append.mp hp with hp₁ | hp₁
          · exact h4 r hr p (by rw [hdec]; exact List.mem_append_left _ hp₁)
          · rcases List.mem_cons.mp hp₁ with rfl | hp₂
            · intro hmem
              exact h4 r hr (condition, q) hentry (List.mem_of_mem_erase hmem)
            · exact h4 r hr p
                (by rw [hdec]; exact List.mem_append_right _ (List.mem_cons_of_mem _ hp₂))
      · rw [hq] at hget
        cases hget
    · by_cases hu : (dictGet s.user_to_queue uid).isSome = true
      · exfalso
        obtain ⟨c₀, hc₀⟩ := Option.isSome_iff_exists.mp hu
        rw [hmatch c₀ hc₀] at hc₀
        have := h3 (uid, condition) (dictGet_mem hc₀)
        simp only [queueOf, hq, Option.getD_some] at this
        exact hin this
      · have hres : leave_queue s uid condition = s := by
          unfold leave_queue
          simp [hq, hin, hu]
        rw [hres]
        exact ⟨h1, h2, h3, h4⟩

theorem ensure_queue_fields (s : MatchManager) (condition : String) :
    (ensure_queue s condition).user_to_queue = s.user_to_queue ∧
    (ensure_queue s condition).user_to_room = s.user_to_room ∧
    (ensure_queue s condition).group_size = s.group_size := by
  unfold ensure_queue
  split <;> exact ⟨rfl, rfl, rfl⟩

theorem ensure_queue_cases (s : MatchManager) (condition : String) :
    ensure_queue s condition = s ∨
    (dictGet s.queues condition = none ∧
      (ensure_queue s condition).queues = s.queues ++ [(condition, [])]) := by
  unfold ensure_queue
  by_cases h0 : (dictGet s.queues condition).isNone = true
  · right
    have hq0 : dictGet s.queues condition = none := Option.isNone_iff_eq_none.mp h0
    rw [if_pos h0]
    exact ⟨hq0, by simp [dictSet_of_get_none hq0]⟩
  · left
    rw [if_neg h0]

theorem ensure_queue_queueOf (s : MatchManager) (condition c : String) :
    queueOf (ensure_queue s condition) c = queueOf s c := by
  rcases ensure_queue_cases s condition with h | ⟨hq0, hq⟩
  · rw [h]
  · unfold queueOf
    rw [hq]
    by_cases hc : c = condition
    · subst hc
      have : dictGet (s.queues ++ [(c, ([] : List String))]) c = some [] := by
        rw [← dictSet_of_get_none hq0]
        exact dictGet_dictSet_self _ _ _
      rw [this, hq0]
      rfl
    · have : dictGet (s.queues ++ [(condition, ([] : List String))]) c
          = dictGet s.queues c := by
        rw [← dictSet_of_get_none hq0]
        exact dictGet_dictSet_ne _ _ _ _ hc
      rw [this]

theorem ensure_queue_preserves_invariant (s : MatchManager) (condition : String)
    (hInv : QueueInvariant s) : QueueInvariant (ensure_queue s condition) := by
  obtain ⟨h1, h2, h3, h4⟩ := hInv
  rcases ensure_queue_cases s condition with h | ⟨hq0, hq⟩
  · rw [h]
    exact ⟨h1, h2, h3, h4⟩
  · have hutq := (ensure_queue_fields s condition).1
    refine ⟨?_, ?_, ?_, ?_⟩
    · show ((ensure_queue s condition).queues.map Prod.snd).flatten.Nodup
      rw [hq]
      simpa using h1
    · intro p hp x hx
      rw [hq] at hp
      rw [hutq]
      rcases List.mem_append.mp hp with hp₁ | hp₁
      · exact h2 p hp₁ x hx
      · rcases List.mem_cons.mp hp₁ with rfl | hp₂
        · cases hx
        · cases hp₂
    · intro e he
      rw [hutq] at he
      rw [ensure_queue_queueOf]
      exact h3 e he
    · intro r hr p hp
      rw [(ensure_queue_fields s condition).2.1] at hr
      rw [hq] at hp
      rcases List.mem_append.mp hp with hp₁ | hp₁
      · exact h4 r hr p hp₁
      · rcases List.mem_cons.mp hp₁ with rfl | hp₂
        · exact List.not_mem_nil _
        · cases hp₂

/-- Appending a fresh, roomless uid to a condition's queue and recording
it in the reverse index preserves the queue invariant. -/
theorem join_append_core (t : MatchManager) (uid condition : String)
    (hInv : QueueInvariant t)
    (hroom : dictGet t.user_to_room uid = none)
    (hfresh : dictGet t.user_to_queue uid = none) :
    QueueInvariant {t with
      queues := dictSet t.queues condition (queueOf t condition ++ [uid]),
      user_to_queue := dictSet t.user_to_queue uid condition} := by
  obtain ⟨h1, h2, h3, h4⟩ := hInv
  have huidq : ∀ p ∈ t.queues, uid ∉ p.2 := by
    intro p hp hmem
    have h := h2 p hp uid hmem
    rw [hfresh] at h
    cases h
  have huidAll : uid ∉ allQueued t := by
    intro hm
    obtain ⟨l, hl, hml⟩ := List.mem_flatten.mp hm
    obtain ⟨p, hp, rfl⟩ := List.mem_map.mp hl
    exact huidq p hp hml
  refine ⟨?_, ?_, ?_, ?_⟩
  · show ((dictSet t.queues condition (queueOf t condition ++ [uid])).map
      Prod.snd).flatten.Nodup
    rcases dictSet_structure t.queues condition (queueOf t condition ++ [uid]) with
      ⟨d₁, d₂, v₀, hdec, _, hset, hget⟩ | ⟨_, hset, hget⟩
    · have hv : queueOf t condition = v₀ := by
        unfold queueOf
        rw [hget]
        rfl
      rw [hset, flatten_snd_decomp]
      have hflat_old : allQueued t =
          (d₁.map Prod.snd).flatten ++ v₀ ++ (d₂.map Prod.snd).flatten := by
        unfold allQueued
        rw [hdec]
        exact flatten_snd_decomp d₁ d₂ condition v₀
      have h1' : ((d₁.map Prod.snd).flatten ++ v₀ ++ (d₂.map Prod.snd).flatten).Nodup := by
        rw [← hflat_old]
        exact h1
      have huid' : uid ∉ (d₁.map Prod.snd).flatten ++ v₀ ++ (d₂.map Prod.snd).flatten := by
        rw [← hflat_old]
        exact huidAll
      rw [hv]
      exact nodup_insert_middle _ _ _ uid h1' huid'
    · have hv : queueOf t condition = [] := by
        unfold queueOf
        rw [hget]
        rfl
      rw [hset, hv]
      have hperm := List.perm_append_singleton uid (allQueued t)
      have : (((t.queues ++ [(condition, [] ++ [uid])]).map Prod.snd).flatten)
          = allQueued t ++ [uid] := by
        simp [allQueued]
      rw [this]
      exact hperm.nodup_iff.mpr (List.nodup_cons.mpr ⟨huidAll, h1⟩)
  · intro p hp x hx
    rcases mem_dictSet hp with rfl | hp₁
    · rcases List.mem_append.mp hx with hx₁ | hx₁
      · have hne : queueOf t condition ≠ [] := List.ne_nil_of_mem hx₁
        have hentry := queueOf_entry_mem hne
        have hxuid : x ≠ uid := by
          intro hxe
          subst hxe
          exact huidq _ hentry hx₁
        rw [dictGet_dictSet_ne _ _ _ _ hxuid]
        simpa using h2 _ hentry x hx₁
      · obtain rfl : x = uid := by simpa using hx₁
        simpa using dictGet_dictSet_self t.user_to_queue x condition
    · have hxuid : x ≠ uid := by
        intro hxe
        subst hxe
        exact huidq p hp₁ hx
      rw [dictGet_dictSet_ne _ _ _ _ hxuid]
      exact h2 p hp₁ x hx
  · intro e he
    rcases mem_dictSet he with rfl | he₁
    · show uid ∈ (dictGet (dictSet t.queues condition (queueOf t condition ++ [uid]))
        condition).getD []
      rw [dictGet_dictSet_self]
      simp
    · have hold := h3 e he₁
      have hene : e.1 ≠ uid := by
        intro hee
        exact (dictGet_eq_none_iff t.user_to_queue uid).mp hfresh e he₁ hee
      by_cases hc : e.2 = condition
      · rw [hc] at hold ⊢
        show e.1 ∈ (dictGet (dictSet t.queues condition (queueOf t condition ++ [uid]))
          condition).getD []
        rw [dictGet_dictSet_self]
        simp only [Option.getD_some]
        exact List.mem_append_left _ hold
      · show e.1 ∈ (dictGet (dictSet t.queues condition (queueOf t condition ++ [uid]))
          e.2).getD []
        rw [dictGet_dictSet_ne _ _ _ _ hc]
        exact hold
  · intro r hr p hp
    rcases mem_dictSet hp with rfl | hp₁
    · intro hmem
      rcases List.mem_append.mp hmem with hm₁ | hm₁
      · have hne : queueOf t condition ≠ [] := List.ne_nil_of_mem hm₁
        exact h4 r hr _ (queueOf_entry_mem hne) hm₁
      · have hruid : r.1 = uid := by simpa using hm₁
        exact (dictGet_eq_none_iff t.user_to_room uid).mp hroom r hr hruid
    · exact h4 r hr p hp₁

theorem join_queue_body_preserves (t : MatchManager) (uid condition : String)
    (now : Nat) (hInv : QueueInvariant t)
    (hroom : dictGet t.user_to_room uid = none)
    (hcap : (queueOf t condition).length + 1 < t.group_size) :
    QueueInvariant (join_queue_body t uid condition now).1 := by
  unfold join_queue_body
  by_cases hu : (dictGet t.user_to_queue uid).isSome = true
  · rw [if_pos hu]
    exact hInv
  · rw [if_neg hu]
    have hfresh : dictGet t.user_to_queue uid = none :=
      Option.not_isSome_iff_eq_none.mp hu
    have hlen : ¬ (t.group_size ≤ (queueOf t condition ++ [uid]).length) := by
      simp only [List.length_append, List.length_cons, List.length_nil]
      omega
    show QueueInvariant
      (if t.group_size ≤ (queueOf t condition ++ [uid]).length
       then match_group {t with
          queues := dictSet t.queues condition (queueOf t condition ++ [uid]),
          user_to_queue := dictSet t.user_to_queue uid condition} condition now
       else ({t with
          queues := dictSet t.queues condition (queueOf t condition ++ [uid]),
          user_to_queue := dictSet t.user_to_queue uid condition}, Except.ok none)).1
    rw [if_neg hlen]
    exact join_append_core t uid condition hInv hroom hfresh

theorem join_queue_preserves_invariant (s : MatchManager) (uid condition : String)
    (now : Nat) (hInv : QueueInvariant s)
    (hroom : dictGet s.user_to_room uid = none)
    (hcap : (queueOf s condition).length + 1 < s.group_size) :
    QueueInvariant (join_queue s uid condition now).1 := by
  unfold join_queue
  apply join_queue_body_preserves
  · exact ensure_queue_preserves_invariant s condition hInv
  · rw [(ensure_queue_fields s condition).2.1]
    exact hroom
  · rw [ensure_queue_queueOf, (ensure_queue_fields s condition).2.2]
    exact hcap

/-! ## C4: the queue invariant is not preserved by every operation -/

/-- C4 counterexample: from a state where "a" is queued under condition
"c1" with the reverse index in sync (reachable by join_queue("a", "c1")
from a fresh manager), calling leave_queue("a", "c2") — a different
condition — deletes the reverse-index entry without touching the queue,
so "a" remains queued while the index no longer agrees with queue
contents. -/
theorem C4_counterexample :
    QueueInvariant c4state ∧ ¬ QueueInvariant (leave_queue c4state "a" "c2") := by
  constructor
  · refine ⟨by decide, ?_, ?_, ?_⟩ <;> decide
  · intro h
    have h2 := h.2.1 ("c1", ["a"]) (by decide) "a" (by decide)
    revert h2
    decide

/-- C4 amended: the invariant (each uid queued at most once overall, the
user_to_queue index agreeing with queue contents both ways, and no
user_to_room holder queued) is preserved by join_queue for a uid that
holds no room when the append leaves the queue below group_size (so no
match fires — a fired match raises inside create_room, stranding index
entries), by leave_queue when the given condition is the one the uid is
queued under, by create_room and end_room always, and by match_group on
a queue below group size. -/
theorem C4_invariant_preservation (s : MatchManager) (uid condition : String)
    (rid : RoomKey) (members : MembersArg) (now : Nat)
    (hInv : QueueInvariant s)
    (hroom : dictGet s.user_to_room uid = none)
    (hcap : (queueOf s condition).length + 1 < s.group_size)
    (hleave : ∀ c, dictGet s.user_to_queue uid = some c → c = condition) :
    QueueInvariant (join_queue s uid condition now).1 ∧
    QueueInvariant (leave_queue s uid condition) ∧
    QueueInvariant (create_room s rid members now).1 ∧
    QueueInvariant (end_room s rid) ∧
    QueueInvariant (match_group s condition now).1 := by
  refine ⟨join_queue_preserves_invariant s uid condition now hInv hroom hcap,
    leave_queue_preserves_invariant s uid condition hInv hleave,
    create_room_preserves_invariant s rid members now hInv,
    end_room_preserves_invariant s rid hInv, ?_⟩
  rw [match_group_noop s condition now (by omega)]
  exact hInv

/-- C4 witness: the amended statement evaluated at a fresh manager with
group size 3. -/
theorem C4_witness :
    QueueInvariant (join_queue (mmInit 3 true) "a" "c1" 0).1 ∧
    QueueInvariant (leave_queue (mmInit 3 true) "a" "c1") ∧
    QueueInvariant (create_room (mmInit 3 true) (.str "r") .noneArg 0).1 ∧
    QueueInvariant (end_room (mmInit 3 true) (.str "r")) ∧
    QueueInvariant (match_group (mmInit 3 true) "c1" 0).1 :=
  C4_invariant_preservation (mmInit 3 true) "a" "c1" (.str "r") .noneArg 0
    (by refine ⟨by decide, ?_, ?_, ?_⟩ <;> decide)
    rfl (by decide)
    (fun c h => by cases h)

end GroupChatBot
